import Mathlib

/-!
Verification development for the reference-counted smart pointer in
`src/arc.rs` (`SafeArc<T>` / `Weak<T>`, called StrongHandle / WeakHandle
in the documentation).

The embedding is sequential (single-thread): each Rust method is a pure
function on the state of one control block.  Counter arithmetic follows
the machine semantics of `usize` atomics: `fetch_add` / `fetch_sub` and
CAS writes are taken modulo `2 ^ 64`.  The two CAS loops (`Weak::upgrade`,
`SafeArc::downgrade`) are additionally modelled with explicit fuel so that
their termination behaviour can be stated.

Ghost observables that mirror real events of the Rust program:
* `payloadAlive` — the payload has been constructed and not yet dropped
  (`ManuallyDrop::drop` has not run);
* `allocated`   — the control block's memory has not been freed
  (`Box::from_raw` + drop has not run);
* `destroyCount` — how many times the payload destructor has run.
-/

/-- Width of `usize` arithmetic (64-bit platform). -/
def W : Nat := 2 ^ 64

/-- `usize::MAX`, also the sentinel value used by `get_mut` / `downgrade`. -/
def USIZE_MAX : Nat := W - 1

theorem W_eq : W = 18446744073709551616 := by norm_num [W]

theorem USIZE_MAX_eq : USIZE_MAX = 18446744073709551615 := by
  norm_num [USIZE_MAX, W]

/-- State of one `ArcData<T>` control block (src/arc.rs:11-15), together
with the ghost observables describing payload/allocation lifecycle. -/
structure BState (T : Type) where
  strong : Nat
  weak : Nat
  payload : T
  payloadAlive : Bool
  allocated : Bool
  destroyCount : Nat
deriving DecidableEq

/-- `SafeArc::new` (src/arc.rs:69-78): allocate a fresh block with
`strong = 1`, `weak = 1`, payload initialised to `value`. -/
def SafeArc.new {T : Type} (value : T) : BState T :=
  { strong := 1, weak := 1, payload := value
    payloadAlive := true, allocated := true, destroyCount := 0 }

/-- `Deref for SafeArc` (src/arc.rs:124-130): a reference to the payload. -/
def SafeArc.deref {T : Type} (s : BState T) : T := s.payload

/-- `Clone for SafeArc` (src/arc.rs:132-140): abort (`none`) if the
pre-increment strong count exceeds `usize::MAX / 2`; otherwise
`fetch_add(1)` on `strong`. -/
def SafeArc.clone {T : Type} (s : BState T) : Option (BState T) :=
  if USIZE_MAX / 2 < s.strong then none
  else some { s with strong := (s.strong + 1) % W }

/-- `Clone for Weak` (src/arc.rs:45-52): `fetch_add(1)` on `weak`. -/
def Weak.cloneW {T : Type} (s : BState T) : BState T :=
  { s with weak := (s.weak + 1) % W }

/-- `Drop for Weak` (src/arc.rs:55-62): `fetch_sub(1)` on `weak`; if the
pre-decrement value was 1, free the block (`Box::from_raw` + drop). -/
def Weak.dropW {T : Type} (s : BState T) : BState T :=
  let old := s.weak
  let s1 := { s with weak := (s.weak + (W - 1)) % W }
  if old = 1 then { s1 with allocated := false } else s1

/-- `Drop for SafeArc` (src/arc.rs:142-151): `fetch_sub(1)` on `strong`;
if the pre-decrement value was 1, run `ManuallyDrop::drop` on the payload
and then drop the reconstituted `Weak` handle (releasing the collective
weak unit). -/
def SafeArc.dropH {T : Type} (s : BState T) : BState T :=
  let old := s.strong
  let s1 := { s with strong := (s.strong + (W - 1)) % W }
  if old = 1 then
    Weak.dropW { s1 with payloadAlive := false, destroyCount := s1.destroyCount + 1 }
  else s1

/-- `Weak::upgrade` (src/arc.rs:26-43), sequential collapse of the CAS
loop: if `strong` is 0 return `none`; otherwise the CAS from the value
just loaded succeeds at once, incrementing `strong`.  The returned
`Option Unit` is the optional new strong handle. -/
def Weak.upgrade {T : Type} (s : BState T) : Option Unit × BState T :=
  if s.strong = 0 then (none, s)
  else (some (), { s with strong := (s.strong + 1) % W })

/-- `SafeArc::downgrade` (src/arc.rs:103-121), sequential collapse of the
CAS loop: with `weak` at the sentinel the loop spins forever (`none`);
otherwise the CAS from the value just loaded succeeds at once. -/
def SafeArc.downgrade {T : Type} (s : BState T) : Option (BState T) :=
  if s.weak = USIZE_MAX then none
  else some { s with weak := (s.weak + 1) % W }

/-- Intermediate state of `SafeArc::get_mut` after the successful CAS of
`weak` from 1 to the sentinel `usize::MAX` (src/arc.rs:85-90). -/
def SafeArc.getMutLocked {T : Type} (s : BState T) : BState T :=
  { s with weak := USIZE_MAX }

/-- `SafeArc::get_mut` (src/arc.rs:84-101): CAS `weak` from 1 to the
sentinel (fail → `none` immediately); read `strong`; store `weak := 1`;
grant access iff the strong value read was 1.  The `Option T` result
stands for the optional `&mut T` (carrying the payload it points at). -/
def SafeArc.get_mut {T : Type} (s : BState T) : Option T × BState T :=
  if s.weak = 1 then
    let locked := SafeArc.getMutLocked s
    let isUnique := locked.strong = 1
    let restored := { locked with weak := 1 }
    (if isUnique then some restored.payload else none, restored)
  else (none, s)

/-- `Weak::upgrade`'s CAS loop with explicit fuel.  `sc` is the strong
value most recently loaded; `none` means the fuel ran out. -/
def Weak.upgradeGo {T : Type} : Nat → Nat → BState T → Option (Option Unit × BState T)
  | 0, _, _ => none
  | fuel + 1, sc, s =>
    if sc = 0 then some (none, s)
    else if s.strong = sc then some (some (), { s with strong := (sc + 1) % W })
    else Weak.upgradeGo fuel s.strong s

/-- `Weak::upgrade` as the fuelled loop, entered with a fresh load of
`strong` (src/arc.rs:27). -/
def Weak.upgradeF {T : Type} (fuel : Nat) (s : BState T) : Option (Option Unit × BState T) :=
  Weak.upgradeGo fuel s.strong s

/-- `SafeArc::downgrade`'s CAS loop with explicit fuel.  `n` is the weak
value most recently loaded; observing the sentinel spins (reloads);
`none` means the fuel ran out. -/
def SafeArc.downgradeGo {T : Type} : Nat → Nat → BState T → Option (BState T)
  | 0, _, _ => none
  | fuel + 1, n, s =>
    if n = USIZE_MAX then SafeArc.downgradeGo fuel s.weak s
    else if s.weak = n then some { s with weak := (n + 1) % W }
    else SafeArc.downgradeGo fuel s.weak s

/-- `SafeArc::downgrade` as the fuelled loop, entered with a fresh load
of `weak` (src/arc.rs:104). -/
def SafeArc.downgradeF {T : Type} (fuel : Nat) (s : BState T) : Option (BState T) :=
  SafeArc.downgradeGo fuel s.weak s

/-- `n` successive `SafeArc::clone` calls (the whole sequence aborts if
any single clone aborts). -/
def SafeArc.cloneN {T : Type} : Nat → BState T → Option (BState T)
  | 0, s => some s
  | n + 1, s => (SafeArc.clone s).bind (SafeArc.cloneN n)

/-- Dropping `n` strong handles in sequence. -/
def SafeArc.dropN {T : Type} : Nat → BState T → BState T
  | 0, s => s
  | n + 1, s => SafeArc.dropN n (SafeArc.dropH s)

-- Arithmetic helpers for `usize` counter updates.

theorem mod_add_one (a : Nat) (h : a < USIZE_MAX) : (a + 1) % W = a + 1 := by
  have hW : W = 18446744073709551616 := W_eq
  have hM : USIZE_MAX = 18446744073709551615 := USIZE_MAX_eq
  exact Nat.mod_eq_of_lt (by omega)

theorem mod_sub_one (a : Nat) (h1 : 1 ≤ a) (h2 : a ≤ USIZE_MAX) :
    (a + (W - 1)) % W = a - 1 := by
  have hW : W = 18446744073709551616 := W_eq
  have hM : USIZE_MAX = 18446744073709551615 := USIZE_MAX_eq
  have h3 : a + (W - 1) = (a - 1) + 1 * W := by omega
  rw [h3, Nat.add_mul_mod_self_right]
  exact Nat.mod_eq_of_lt (by omega)


-- Effect lemmas for the basic operations.

theorem clone_some_iff {T : Type} (s : BState T) :
    SafeArc.clone s = none ↔ USIZE_MAX / 2 < s.strong := by
  unfold SafeArc.clone
  split <;> simp_all

theorem clone_some_eq {T : Type} (s s2 : BState T)
    (h : SafeArc.clone s = some s2) : s2 = { s with strong := s.strong + 1 } := by
  unfold SafeArc.clone at h
  split at h
  · simp at h
  · have hle : ¬ (USIZE_MAX / 2 < s.strong) := by assumption
    have hlt : s.strong < USIZE_MAX := by
      have := USIZE_MAX_eq
      omega
    rw [mod_add_one s.strong hlt] at h
    simp at h
    exact h.symm

/-- A concrete control-block state over `Nat` payload 42, used by the
witness theorems. -/
def mkS (a b : Nat) : BState Nat :=
  { strong := a, weak := b, payload := 42,
    payloadAlive := true, allocated := true, destroyCount := 0 }

/-- C5: `StrongHandle::new(value)` produces a block with `strong = 1`,
`weak = 1`, payload initialised to `value`, and `deref` yields that
value. -/
theorem c5_new_counters_and_deref {T : Type} (v : T) :
    SafeArc.new v = { strong := 1, weak := 1, payload := v,
                      payloadAlive := true, allocated := true, destroyCount := 0 } ∧
    SafeArc.deref (SafeArc.new v) = v :=
  ⟨rfl, rfl⟩

/-- C6: cloning a strong handle aborts exactly when the pre-increment
strong count exceeds `usize::MAX / 2`; otherwise it increments `strong`
by exactly one (no wraparound) and changes nothing else. -/
theorem c6_clone_abort_guard {T : Type} (s : BState T) :
    (SafeArc.clone s = none ↔ USIZE_MAX / 2 < s.strong) ∧
    (∀ s2, SafeArc.clone s = some s2 → s2 = { s with strong := s.strong + 1 }) :=
  ⟨clone_some_iff s, fun s2 h => clone_some_eq s s2 h⟩

/-- C6 witness at concrete states (one clone success, one abort). -/
theorem c6_clone_abort_guard_witness :
    SafeArc.clone (mkS 3 1) = some (mkS 4 1) ∧
    SafeArc.clone (mkS USIZE_MAX 1) = none := by
  constructor
  · have h : SafeArc.clone (mkS 3 1) = some { mkS 3 1 with strong := 3 + 1 } := by
      cases hc : SafeArc.clone (mkS 3 1) with
      | none => exact absurd ((c6_clone_abort_guard (mkS 3 1)).1.mp hc) (by decide)
      | some s2 =>
        rw [(c6_clone_abort_guard (mkS 3 1)).2 s2 hc]
        rfl
    rw [h]
    rfl
  · exact (c6_clone_abort_guard (mkS USIZE_MAX 1)).1.mpr (by decide)

/-- C3: `upgrade` returns nothing iff `strong` is 0 at the check (and
then leaves the state untouched); otherwise it increments `strong` by
exactly one and returns a handle; `weak` is never modified. -/
theorem c3_upgrade_strong_cas {T : Type} (s : BState T) (h : s.strong < USIZE_MAX) :
    ((Weak.upgrade s).1 = none ↔ s.strong = 0) ∧
    (Weak.upgrade s).2.weak = s.weak ∧
    (s.strong = 0 → Weak.upgrade s = (none, s)) ∧
    (s.strong ≠ 0 → Weak.upgrade s = (some (), { s with strong := s.strong + 1 })) := by
  unfold Weak.upgrade
  by_cases h0 : s.strong = 0
  · simp [h0]
  · simp [h0, mod_add_one s.strong h]

/-- C3 witness at a concrete state with `strong = 2`, `weak = 5`. -/
theorem c3_upgrade_strong_cas_witness :
    (((Weak.upgrade (mkS 2 5)).1 = none ↔ (mkS 2 5).strong = 0) ∧
      (Weak.upgrade (mkS 2 5)).2.weak = (mkS 2 5).weak ∧
      ((mkS 2 5).strong = 0 → Weak.upgrade (mkS 2 5) = (none, mkS 2 5)) ∧
      ((mkS 2 5).strong ≠ 0 →
        Weak.upgrade (mkS 2 5) = (some (), { mkS 2 5 with strong := (mkS 2 5).strong + 1 }))) :=
  c3_upgrade_strong_cas (mkS 2 5) (by decide)

/-- C1: `get_mut` grants mutable access iff `strong = 1` and `weak = 1`
at call time (sole strong handle, no weak handles); in every other
counter state it returns nothing. -/
theorem c1_get_mut_iff_unique {T : Type} (s : BState T) :
    ((SafeArc.get_mut s).1.isSome = true ↔ (s.strong = 1 ∧ s.weak = 1)) ∧
    (s.strong = 1 ∧ s.weak = 1 → (SafeArc.get_mut s).1 = some s.payload) := by
  unfold SafeArc.get_mut SafeArc.getMutLocked
  by_cases hw : s.weak = 1
  · by_cases hs : s.strong = 1 <;> simp [hw, hs]
  · simp [hw]

/-- C1 witness: grant at (strong, weak) = (1,1), deny at (1,2) and (2,1). -/
theorem c1_get_mut_iff_unique_witness :
    (SafeArc.get_mut (mkS 1 1)).1 = some 42 ∧
    (SafeArc.get_mut (mkS 1 2)).1 = none ∧
    (SafeArc.get_mut (mkS 2 1)).1 = none := by
  refine ⟨(c1_get_mut_iff_unique (mkS 1 1)).2 (by decide), ?_, ?_⟩
  · have h : ¬ ((SafeArc.get_mut (mkS 1 2)).1.isSome = true) := by
      rw [(c1_get_mut_iff_unique (mkS 1 2)).1]
      decide
    simpa using Option.not_isSome_iff_eq_none.mp (by simpa using h)
  · have h : ¬ ((SafeArc.get_mut (mkS 2 1)).1.isSome = true) := by
      rw [(c1_get_mut_iff_unique (mkS 2 1)).1]
      decide
    simpa using Option.not_isSome_iff_eq_none.mp (by simpa using h)

/-- C9: `get_mut` restores the state it was called in — counters and
payload are at their pre-call values on return; on a failed initial CAS
(`weak ≠ 1`) nothing is modified at all, and on success `weak` is locked
at the sentinel and then restored to exactly 1. -/
theorem c9_get_mut_state_restored {T : Type} (s : BState T) :
    (SafeArc.get_mut s).2 = s ∧
    (s.weak ≠ 1 → SafeArc.get_mut s = (none, s)) ∧
    (s.weak = 1 → (SafeArc.getMutLocked s).weak = USIZE_MAX ∧
      { SafeArc.getMutLocked s with weak := 1 } = s) := by
  obtain ⟨st, wk, p, pa, al, dc⟩ := s
  unfold SafeArc.get_mut SafeArc.getMutLocked
  by_cases hw : wk = 1
  · by_cases hs : st = 1 <;> simp [hw, hs]
  · simp [hw]

/-- C9 witness at concrete states (CAS-success and CAS-failure cases). -/
theorem c9_get_mut_state_restored_witness :
    (SafeArc.get_mut (mkS 2 1)).2 = mkS 2 1 ∧
    ((mkS 1 3).weak ≠ 1 → SafeArc.get_mut (mkS 1 3) = (none, mkS 1 3)) :=
  ⟨(c9_get_mut_state_restored (mkS 2 1)).1,
   fun h => (c9_get_mut_state_restored (mkS 1 3)).2.1 h⟩

-- Effect lemmas for the two Drop implementations.

theorem mod_w_self : (1 + (W - 1)) % W = 0 := by
  have h : 1 + (W - 1) = W := by
    have := W_eq
    omega
  rw [h, Nat.mod_self]

theorem dropW_eq {T : Type} (s : BState T) (h1 : 1 ≤ s.weak) (h2 : s.weak ≤ USIZE_MAX) :
    Weak.dropW s = if s.weak = 1
      then { s with weak := 0, allocated := false }
      else { s with weak := s.weak - 1 } := by
  unfold Weak.dropW
  by_cases hw : s.weak = 1
  · simp [hw, mod_w_self]
  · simp [hw, mod_sub_one s.weak h1 h2]

theorem dropH_last {T : Type} (s : BState T) (hs : s.strong = 1) :
    SafeArc.dropH s =
      Weak.dropW { s with strong := 0, payloadAlive := false,
                          destroyCount := s.destroyCount + 1 } := by
  unfold SafeArc.dropH
  simp [hs, mod_w_self]

theorem dropH_not_last {T : Type} (s : BState T) (h1 : 1 ≤ s.strong)
    (h2 : s.strong ≤ USIZE_MAX) (hs : s.strong ≠ 1) :
    SafeArc.dropH s = { s with strong := s.strong - 1 } := by
  unfold SafeArc.dropH
  simp [hs, mod_sub_one s.strong h1 h2]

/-- C2: dropping a strong handle decrements `strong`; the payload is
destroyed (destructor runs once) iff the pre-decrement value was exactly
1, in which case the collective weak unit is released exactly as by a
`Weak` drop — freeing the block iff no weak handle remains (`weak` was
1); if weak handles remain the payload dies but the block stays
allocated; a non-last drop touches nothing but `strong`. -/
theorem c2_drop_strong_last_owner {T : Type} (s : BState T)
    (h1 : 1 ≤ s.strong) (h2 : s.strong ≤ USIZE_MAX)
    (h3 : 1 ≤ s.weak) (h4 : s.weak ≤ USIZE_MAX) (h5 : s.allocated = true) :
    (SafeArc.dropH s).strong = s.strong - 1 ∧
    ((SafeArc.dropH s).destroyCount = s.destroyCount + 1 ↔ s.strong = 1) ∧
    (s.strong = 1 → SafeArc.dropH s =
      Weak.dropW { s with strong := 0, payloadAlive := false,
                          destroyCount := s.destroyCount + 1 }) ∧
    (s.strong = 1 → ((SafeArc.dropH s).allocated = false ↔ s.weak = 1)) ∧
    (s.strong = 1 → 2 ≤ s.weak →
      (SafeArc.dropH s).payloadAlive = false ∧ (SafeArc.dropH s).allocated = true ∧
      (SafeArc.dropH s).weak = s.weak - 1) ∧
    (s.strong ≠ 1 →
      (SafeArc.dropH s).payloadAlive = s.payloadAlive ∧
      (SafeArc.dropH s).allocated = s.allocated ∧
      (SafeArc.dropH s).destroyCount = s.destroyCount ∧
      (SafeArc.dropH s).weak = s.weak) := by
  by_cases hs : s.strong = 1
  · rw [dropH_last s hs,
      dropW_eq { s with strong := 0, payloadAlive := false,
                        destroyCount := s.destroyCount + 1 } h3 h4]
    by_cases hw : s.weak = 1
    · rw [if_pos hw]
      exact ⟨by simp [hs], by simp [hs], fun _ => rfl, fun _ => by simp [hw],
             fun _ hw2 => absurd hw2 (by omega), fun h => absurd hs h⟩
    · rw [if_neg hw]
      exact ⟨by simp [hs], by simp [hs], fun _ => rfl, fun _ => by simp [h5, hw],
             fun _ _ => by simp [h5], fun h => absurd hs h⟩
  · rw [dropH_not_last s h1 h2 hs]
    exact ⟨by simp, iff_of_false (by simp) hs, fun h => absurd h hs,
           fun h => absurd h hs, fun h _ => absurd h hs,
           fun _ => ⟨rfl, rfl, rfl, rfl⟩⟩

/-- C2 witness at concrete states: last owner with and without a
surviving weak handle, and a non-last owner. -/
theorem c2_drop_strong_last_owner_witness :
    ((SafeArc.dropH (mkS 1 1)).strong = 0 ∧
      ((SafeArc.dropH (mkS 1 1)).destroyCount = 1 ↔ (mkS 1 1).strong = 1) ∧
      ((mkS 1 1).strong = 1 → SafeArc.dropH (mkS 1 1) =
        Weak.dropW { mkS 1 1 with strong := 0, payloadAlive := false, destroyCount := 1 }) ∧
      ((mkS 1 1).strong = 1 → ((SafeArc.dropH (mkS 1 1)).allocated = false ↔ (mkS 1 1).weak = 1))) ∧
    ((mkS 1 2).strong = 1 → 2 ≤ (mkS 1 2).weak →
      (SafeArc.dropH (mkS 1 2)).payloadAlive = false ∧
      (SafeArc.dropH (mkS 1 2)).allocated = true ∧
      (SafeArc.dropH (mkS 1 2)).weak = 1) ∧
    ((mkS 3 1).strong ≠ 1 →
      (SafeArc.dropH (mkS 3 1)).payloadAlive = (mkS 3 1).payloadAlive ∧
      (SafeArc.dropH (mkS 3 1)).allocated = (mkS 3 1).allocated ∧
      (SafeArc.dropH (mkS 3 1)).destroyCount = (mkS 3 1).destroyCount ∧
      (SafeArc.dropH (mkS 3 1)).weak = (mkS 3 1).weak) := by
  have ha := c2_drop_strong_last_owner (mkS 1 1) (by decide) (by decide) (by decide) (by decide) (by decide)
  have hb := c2_drop_strong_last_owner (mkS 1 2) (by decide) (by decide) (by decide) (by decide) (by decide)
  have hc := c2_drop_strong_last_owner (mkS 3 1) (by decide) (by decide) (by decide) (by decide) (by decide)
  exact ⟨⟨ha.1, ha.2.1, ha.2.2.1, ha.2.2.2.1⟩, hb.2.2.2.2.1, hc.2.2.2.2.2⟩


-- Iterated clone / drop lemmas.

theorem cloneN_succ_some {T : Type} (k : Nat) (s s2 : BState T) :
    SafeArc.cloneN (k + 1) s = some s2 ↔
    ∃ t, SafeArc.clone s = some t ∧ SafeArc.cloneN k t = some s2 := by
  show (SafeArc.clone s).bind (SafeArc.cloneN k) = some s2 ↔ _
  rw [Option.bind_eq_some]

theorem cloneN_eq {T : Type} :
    ∀ (k : Nat) (s s2 : BState T), SafeArc.cloneN k s = some s2 →
      s2 = { s with strong := s.strong + k } := by
  intro k
  induction k with
  | zero =>
    intro s s2 h
    have h2 : s = s2 := by simpa [SafeArc.cloneN] using h
    obtain ⟨st, wk, p, pa, al, dc⟩ := s
    simp [← h2]
  | succ n ih =>
    intro s s2 h
    rw [cloneN_succ_some] at h
    obtain ⟨t, ht, h2⟩ := h
    have ht2 := clone_some_eq s t ht
    subst ht2
    have := ih _ _ h2
    rw [this]
    simp
    omega

theorem cloneN_strong_le {T : Type} :
    ∀ (k : Nat) (s s2 : BState T), SafeArc.cloneN (k + 1) s = some s2 →
      s2.strong ≤ USIZE_MAX / 2 + 1 := by
  intro k
  induction k with
  | zero =>
    intro s s2 h
    rw [cloneN_succ_some] at h
    obtain ⟨t, ht, h2⟩ := h
    have hb : ¬ (USIZE_MAX / 2 < s.strong) := by
      intro hcon
      rw [(clone_some_iff s).mpr hcon] at ht
      exact Option.noConfusion ht
    have ht2 := clone_some_eq s t ht
    have h2t : t = s2 := by simpa [SafeArc.cloneN] using h2
    rw [← h2t, ht2]
    simp
    omega
  | succ n ih =>
    intro s s2 h
    rw [cloneN_succ_some] at h
    obtain ⟨t, ht, h2⟩ := h
    exact ih t s2 h2

theorem dropN_lt {T : Type} :
    ∀ (k : Nat) (s : BState T), k < s.strong → s.strong ≤ USIZE_MAX →
      SafeArc.dropN k s = { s with strong := s.strong - k } := by
  intro k
  induction k with
  | zero =>
    intro s _ _
    obtain ⟨st, wk, p, pa, al, dc⟩ := s
    simp [SafeArc.dropN]
  | succ n ih =>
    intro s hk hle
    have hs1 : s.strong ≠ 1 := by omega
    have hd : SafeArc.dropH s = { s with strong := s.strong - 1 } :=
      dropH_not_last s (by omega) hle hs1
    show SafeArc.dropN n (SafeArc.dropH s) = _
    rw [hd, ih { s with strong := s.strong - 1 } (by simp; omega) (by simp; omega)]
    simp
    omega

theorem dropN_all {T : Type} :
    ∀ (k : Nat) (s : BState T), s.strong = k + 1 → k + 1 ≤ USIZE_MAX →
      1 ≤ s.weak → s.weak ≤ USIZE_MAX →
      SafeArc.dropN (k + 1) s =
        if s.weak = 1
        then { s with strong := 0, weak := 0, payloadAlive := false,
                      allocated := false, destroyCount := s.destroyCount + 1 }
        else { s with strong := 0, weak := s.weak - 1, payloadAlive := false,
                      destroyCount := s.destroyCount + 1 } := by
  intro k
  induction k with
  | zero =>
    intro s hs _ hw1 hw2
    show SafeArc.dropN 0 (SafeArc.dropH s) = _
    rw [show SafeArc.dropN 0 (SafeArc.dropH s) = SafeArc.dropH s from rfl,
      dropH_last s hs,
      dropW_eq { s with strong := 0, payloadAlive := false,
                        destroyCount := s.destroyCount + 1 } hw1 hw2]
  | succ n ih =>
    intro s hs hle hw1 hw2
    have hs1 : s.strong ≠ 1 := by omega
    have hd : SafeArc.dropH s = { s with strong := s.strong - 1 } :=
      dropH_not_last s (by omega) (by omega) hs1
    show SafeArc.dropN (n + 1) (SafeArc.dropH s) = _
    rw [hd, ih { s with strong := s.strong - 1 } (by simp; omega) (by omega) hw1 hw2]

/-- C4: for every N ≥ 1, making one handle with `new` and N−1 clones,
then dropping any N−1 of the N handles, leaves the payload alive and
readable through the remaining handle (`deref` still yields `v`, the
destructor has run 0 times); dropping the final handle destroys the
payload exactly once (destructor count exactly 1, never 0 or more than
1). -/
theorem c4_payload_destroyed_exactly_once {T : Type} (N : Nat) (v : T)
    (hN : 1 ≤ N) (s : BState T)
    (hc : SafeArc.cloneN (N - 1) (SafeArc.new v) = some s) :
    (SafeArc.dropN (N - 1) s).payloadAlive = true ∧
    SafeArc.deref (SafeArc.dropN (N - 1) s) = v ∧
    (SafeArc.dropN (N - 1) s).destroyCount = 0 ∧
    (SafeArc.dropH (SafeArc.dropN (N - 1) s)).destroyCount = 1 ∧
    (SafeArc.dropH (SafeArc.dropN (N - 1) s)).payloadAlive = false := by
  have hse := cloneN_eq (N - 1) (SafeArc.new v) s hc
  have hsN : s.strong = N := by
    rw [hse]
    show (SafeArc.new v).strong + (N - 1) = N
    show 1 + (N - 1) = N
    omega
  have hM := USIZE_MAX_eq
  have hbound : s.strong ≤ USIZE_MAX := by
    rcases Nat.lt_or_ge N 2 with h1 | h1
    · omega
    · obtain ⟨k, hk⟩ : ∃ k, N - 1 = k + 1 := ⟨N - 2, by omega⟩
      rw [hk] at hc
      have := cloneN_strong_le k (SafeArc.new v) s hc
      omega
  have hw : s.weak = 1 := by rw [hse]; rfl
  have hp : s.payload = v := by rw [hse]; rfl
  have hpa : s.payloadAlive = true := by rw [hse]; rfl
  have hdc : s.destroyCount = 0 := by rw [hse]; rfl
  have hdrops : SafeArc.dropN (N - 1) s = { s with strong := 1 } := by
    rw [dropN_lt (N - 1) s (by omega) hbound]
    congr 1
    omega
  rw [hdrops]
  have hfin : SafeArc.dropH { s with strong := 1 } =
      { s with strong := 0, weak := 0, payloadAlive := false,
               allocated := false, destroyCount := s.destroyCount + 1 } := by
    rw [dropH_last { s with strong := 1 } rfl,
      dropW_eq _ (by simp [hw]) (by simp [hw]; omega)]
    simp [hw]
  rw [hfin]
  exact ⟨hpa, hp, hdc, by simp [hdc], rfl⟩

/-- C4 witness: N = 3 with payload 42. -/
theorem c4_payload_destroyed_exactly_once_witness :
    (SafeArc.dropN 2 (mkS 3 1)).payloadAlive = true ∧
    SafeArc.deref (SafeArc.dropN 2 (mkS 3 1)) = 42 ∧
    (SafeArc.dropN 2 (mkS 3 1)).destroyCount = 0 ∧
    (SafeArc.dropH (SafeArc.dropN 2 (mkS 3 1))).destroyCount = 1 ∧
    (SafeArc.dropH (SafeArc.dropN 2 (mkS 3 1))).payloadAlive = false :=
  c4_payload_destroyed_exactly_once 3 (42 : Nat) (by decide) (mkS 3 1) (by decide)

/-- C8: from any state with at least one strong handle, `downgrade`
produces a weak handle whose `upgrade` succeeds; after dropping all
strong handles, `upgrade` on that weak handle returns nothing, while the
weak handle itself still keeps the block allocated. -/
theorem c8_downgrade_upgrade_liveness {T : Type} (s : BState T)
    (h1 : 1 ≤ s.strong) (h2 : s.strong ≤ USIZE_MAX) (h3 : 1 ≤ s.weak)
    (h4 : s.weak < USIZE_MAX) (h5 : s.allocated = true) :
    SafeArc.downgrade s = some { s with weak := s.weak + 1 } ∧
    (Weak.upgrade { s with weak := s.weak + 1 }).1.isSome = true ∧
    (Weak.upgrade (SafeArc.dropN s.strong { s with weak := s.weak + 1 })).1 = none ∧
    (SafeArc.dropN s.strong { s with weak := s.weak + 1 }).allocated = true := by
  have hM := USIZE_MAX_eq
  have hdg : SafeArc.downgrade s = some { s with weak := s.weak + 1 } := by
    unfold SafeArc.downgrade
    rw [if_neg (by omega), mod_add_one s.weak h4]
  have hup : (Weak.upgrade { s with weak := s.weak + 1 }).1.isSome = true := by
    unfold Weak.upgrade
    rw [if_neg (by simp; omega)]
    rfl
  have hfull : SafeArc.dropN s.strong { s with weak := s.weak + 1 } =
      { s with strong := 0, weak := s.weak, payloadAlive := false,
               destroyCount := s.destroyCount + 1 } := by
    obtain ⟨k, hk⟩ : ∃ k, s.strong = k + 1 := ⟨s.strong - 1, by omega⟩
    rw [hk]
    rw [dropN_all k
        { strong := k + 1, weak := s.weak + 1, payload := s.payload,
          payloadAlive := s.payloadAlive, allocated := s.allocated,
          destroyCount := s.destroyCount }
        rfl (by omega) (by simp) (by simp; omega),
      if_neg (by simp; omega)]
    simp
  rw [hfull]
  refine ⟨hdg, hup, ?_, h5⟩
  unfold Weak.upgrade
  rw [if_pos rfl]

/-- C8 witness: `new 42` (strong = weak = 1). -/
theorem c8_downgrade_upgrade_liveness_witness :
    SafeArc.downgrade (mkS 1 1) = some { mkS 1 1 with weak := 2 } ∧
    (Weak.upgrade { mkS 1 1 with weak := 2 }).1.isSome = true ∧
    (Weak.upgrade (SafeArc.dropN 1 { mkS 1 1 with weak := 2 })).1 = none ∧
    (SafeArc.dropN 1 { mkS 1 1 with weak := 2 }).allocated = true :=
  c8_downgrade_upgrade_liveness (mkS 1 1) (by decide) (by decide) (by decide)
    (by decide) (by decide)

-- Fuelled CAS-loop lemmas.

theorem downgradeGo_sentinel {T : Type} (s : BState T) (hw : s.weak = USIZE_MAX) :
    ∀ f, SafeArc.downgradeGo f s.weak s = none := by
  intro f
  induction f with
  | zero => rfl
  | succ n ih =>
    show SafeArc.downgradeGo (n + 1) s.weak s = none
    unfold SafeArc.downgradeGo
    rw [if_pos hw]
    exact ih

/-- C10: in the sequential embedding the CAS loops terminate on their
first iteration — `upgrade` for every strong value (one unit of fuel
suffices, yielding the collapsed result), `downgrade` for every weak
value other than the sentinel (incrementing `weak` by exactly one and
leaving `strong` unchanged) — while `downgrade` with `weak` at the
sentinel `usize::MAX` spins without terminating (no amount of fuel
produces a result). -/
theorem c10_cas_loops_terminate {T : Type} :
    (∀ (s : BState T) (f : Nat), Weak.upgradeF (f + 1) s = some (Weak.upgrade s)) ∧
    (∀ (s : BState T) (f : Nat), s.weak < USIZE_MAX →
      SafeArc.downgradeF (f + 1) s = some { s with weak := s.weak + 1 }) ∧
    (∀ (s : BState T) (f : Nat), s.weak = USIZE_MAX →
      SafeArc.downgradeF f s = none) := by
  refine ⟨?_, ?_, ?_⟩
  · intro s f
    unfold Weak.upgradeF Weak.upgradeGo Weak.upgrade
    by_cases h0 : s.strong = 0 <;> simp [h0]
  · intro s f h
    have hM := USIZE_MAX_eq
    unfold SafeArc.downgradeF SafeArc.downgradeGo
    rw [if_neg (by omega), if_pos rfl, mod_add_one s.weak h]
  · intro s f h
    exact downgradeGo_sentinel s h f

/-- C10 witness: one unit of fuel at (strong, weak) = (2, 1); five units
of fuel still spin at weak = sentinel. -/
theorem c10_cas_loops_terminate_witness :
    Weak.upgradeF 1 (mkS 2 1) = some (Weak.upgrade (mkS 2 1)) ∧
    SafeArc.downgradeF 1 (mkS 2 1) = some { mkS 2 1 with weak := 2 } ∧
    SafeArc.downgradeF 5 (mkS 1 USIZE_MAX) = none :=
  ⟨c10_cas_loops_terminate.1 (mkS 2 1) 0,
   c10_cas_loops_terminate.2.1 (mkS 2 1) 0 (by decide),
   c10_cas_loops_terminate.2.2 (mkS 1 USIZE_MAX) 5 rfl⟩

-- Reachability model for the whole-lifecycle invariant (C7).

theorem get_mut_snd {T : Type} (s : BState T) : (SafeArc.get_mut s).2 = s := by
  obtain ⟨st, wk, p, pa, al, dc⟩ := s
  unfold SafeArc.get_mut SafeArc.getMutLocked
  by_cases hw : wk = 1
  · by_cases hs : st = 1 <;> simp [hw, hs]
  · simp [hw]

theorem downgrade_some_eq {T : Type} (s b2 : BState T)
    (h : SafeArc.downgrade s = some b2) :
    s.weak ≠ USIZE_MAX ∧ b2 = { s with weak := (s.weak + 1) % W } := by
  unfold SafeArc.downgrade at h
  split at h
  · simp at h
  · refine ⟨by assumption, ?_⟩
    simp at h
    exact h.symm

/-- Configuration of the sequential lifecycle model: the shared control
block plus ghost counts of the live `SafeArc` handles (`sH`) and live
`Weak` handles (`wH`) the program holds. -/
structure Config (T : Type) where
  blk : BState T
  sH : Nat
  wH : Nat

/-- Supported handle-count regime: at most `usize::MAX / 2` live handles
of each kind.  (The spec's non-goal list excludes reference counts
beyond the native word size; physically, 2^63 live handles cannot
exist.) -/
def handleBound : Nat := USIZE_MAX / 2

theorem handleBound_eq : handleBound = 9223372036854775807 := by
  norm_num [handleBound, USIZE_MAX, W]

/-- One sequential step: an API operation performed on some live handle.
Each constructor requires a handle of the right kind to exist (one
cannot clone, drop, downgrade or upgrade a handle one does not hold) and
applies the corresponding source operation to the block. -/
inductive Step {T : Type} : Config T → Config T → Prop where
  | strongClone (c : Config T) (b2 : BState T) (h : 1 ≤ c.sH)
      (hc : SafeArc.clone c.blk = some b2) :
      Step c ⟨b2, c.sH + 1, c.wH⟩
  | strongDrop (c : Config T) (h : 1 ≤ c.sH) :
      Step c ⟨SafeArc.dropH c.blk, c.sH - 1, c.wH⟩
  | weakClone (c : Config T) (h : 1 ≤ c.wH) :
      Step c ⟨Weak.cloneW c.blk, c.sH, c.wH + 1⟩
  | weakDrop (c : Config T) (h : 1 ≤ c.wH) :
      Step c ⟨Weak.dropW c.blk, c.sH, c.wH - 1⟩
  | downgradeOp (c : Config T) (b2 : BState T) (h : 1 ≤ c.sH)
      (hd : SafeArc.downgrade c.blk = some b2) :
      Step c ⟨b2, c.sH, c.wH + 1⟩
  | upgradeOp (c : Config T) (h : 1 ≤ c.wH) (hsp : 0 < c.blk.strong) :
      Step c ⟨(Weak.upgrade c.blk).2, c.sH + 1, c.wH⟩
  | upgradeFailOp (c : Config T) (h : 1 ≤ c.wH) (hs0 : c.blk.strong = 0) :
      Step c ⟨(Weak.upgrade c.blk).2, c.sH, c.wH⟩
  | getMutOp (c : Config T) (h : 1 ≤ c.sH) :
      Step c ⟨(SafeArc.get_mut c.blk).2, c.sH, c.wH⟩

/-- A step staying within the supported handle-count regime. -/
def StepB {T : Type} (c c2 : Config T) : Prop :=
  Step c c2 ∧ c2.sH ≤ handleBound ∧ c2.wH ≤ handleBound

/-- Initial configuration: `SafeArc::new v`, one strong handle, no weak
handles. -/
def initConfig {T : Type} (v : T) : Config T :=
  ⟨SafeArc.new v, 1, 0⟩

/-- Configurations reachable from `new v` by any sequence of operations
(within the supported handle-count regime). -/
def Reach {T : Type} (v : T) (c : Config T) : Prop :=
  Relation.ReflTransGen StepB (initConfig v) c

/-- Inductive invariant: the strong counter counts the strong handles;
the weak counter counts the weak handles plus the collective unit held
while any strong handle lives; the block is allocated iff any handle of
either kind lives. -/
def ArcInv {T : Type} (c : Config T) : Prop :=
  c.blk.strong = c.sH ∧
  (0 < c.sH → c.blk.weak = c.wH + 1) ∧
  (c.sH = 0 → c.blk.weak = c.wH) ∧
  c.sH ≤ handleBound ∧ c.wH ≤ handleBound ∧
  (c.blk.allocated = true ↔ 0 < c.sH + c.wH)

theorem inv_init {T : Type} (v : T) : ArcInv (initConfig v) := by
  have hHB := handleBound_eq
  refine ⟨rfl, fun _ => rfl, fun h => absurd h one_ne_zero, ?_, ?_, ?_⟩
  · show 1 ≤ handleBound
    omega
  · show 0 ≤ handleBound
    omega
  · show true = true ↔ 0 < 1 + 0
    simp

theorem inv_step {T : Type} (c c2 : Config T) (hI : ArcInv c) (hs : StepB c c2) :
    ArcInv c2 := by
  obtain ⟨hstep, hb1, hb2⟩ := hs
  obtain ⟨h1, h21, h22, h4, h5, h6⟩ := hI
  have hM := USIZE_MAX_eq
  have hHB := handleBound_eq
  cases hstep with
  | strongClone b2 hs1 hc =>
    obtain hb := clone_some_eq c.blk b2 hc
    subst hb
    have hw := h21 (by omega)
    refine ⟨?_, ?_, ?_, hb1, hb2, ?_⟩
    · show c.blk.strong + 1 = c.sH + 1
      omega
    · intro _
      show c.blk.weak = c.wH + 1
      exact hw
    · intro hc0
      have hc1 : c.sH + 1 = 0 := hc0
      exact absurd hc1 (by omega)
    · show c.blk.allocated = true ↔ 0 < c.sH + 1 + c.wH
      rw [h6]
      omega
  | strongDrop hs1 =>
    have hwk := h21 (by omega)
    by_cases hn1 : c.sH = 1
    · rw [dropH_last c.blk (by omega),
        dropW_eq { c.blk with strong := 0, payloadAlive := false, destroyCount := c.blk.destroyCount + 1 }
          (show 1 ≤ c.blk.weak by omega) (show c.blk.weak ≤ USIZE_MAX by omega)]
      by_cases hw0 : c.wH = 0
      · rw [if_pos (show c.blk.weak = 1 by omega)]
        refine ⟨?_, ?_, ?_, hb1, hb2, ?_⟩
        · show (0 : Nat) = c.sH - 1
          omega
        · intro h0
          have h2 : 0 < c.sH - 1 := h0
          exact absurd h2 (by omega)
        · intro _
          show (0 : Nat) = c.wH
          omega
        · show false = true ↔ 0 < c.sH - 1 + c.wH
          exact iff_of_false (by simp) (by omega)
      · rw [if_neg (show ¬ c.blk.weak = 1 by omega)]
        refine ⟨?_, ?_, ?_, hb1, hb2, ?_⟩
        · show (0 : Nat) = c.sH - 1
          omega
        · intro h0
          have h2 : 0 < c.sH - 1 := h0
          exact absurd h2 (by omega)
        · intro _
          show c.blk.weak - 1 = c.wH
          omega
        · show c.blk.allocated = true ↔ 0 < c.sH - 1 + c.wH
          rw [h6]
          omega
    · rw [dropH_not_last c.blk (by omega) (by omega) (by omega)]
      refine ⟨?_, ?_, ?_, hb1, hb2, ?_⟩
      · show c.blk.strong - 1 = c.sH - 1
        omega
      · intro _
        show c.blk.weak = c.wH + 1
        exact hwk
      · intro h0
        have h2 : c.sH - 1 = 0 := h0
        exact absurd h2 (by omega)
      · show c.blk.allocated = true ↔ 0 < c.sH - 1 + c.wH
        rw [h6]
        omega
  | weakClone hw1 =>
    have hwlt : c.blk.weak < USIZE_MAX := by
      by_cases hn : 0 < c.sH
      · have := h21 hn
        omega
      · have := h22 (by omega)
        omega
    have hcw : Weak.cloneW c.blk = { c.blk with weak := c.blk.weak + 1 } := by
      unfold Weak.cloneW
      rw [mod_add_one c.blk.weak hwlt]
    rw [hcw]
    refine ⟨h1, ?_, ?_, hb1, hb2, ?_⟩
    · intro hn
      have := h21 hn
      show c.blk.weak + 1 = c.wH + 1 + 1
      omega
    · intro hn0
      have := h22 hn0
      show c.blk.weak + 1 = c.wH + 1
      omega
    · show c.blk.allocated = true ↔ 0 < c.sH + (c.wH + 1)
      rw [h6]
      omega
  | weakDrop hw1 =>
    have hge : 1 ≤ c.blk.weak := by
      by_cases hn : 0 < c.sH
      · have := h21 hn
        omega
      · have := h22 (by omega)
        omega
    have hle : c.blk.weak ≤ USIZE_MAX := by
      by_cases hn : 0 < c.sH
      · have := h21 hn
        omega
      · have := h22 (by omega)
        omega
    rw [dropW_eq c.blk hge hle]
    by_cases hn : 0 < c.sH
    · have hwk := h21 hn
      rw [if_neg (by omega)]
      refine ⟨h1, ?_, ?_, hb1, hb2, ?_⟩
      · intro _
        show c.blk.weak - 1 = c.wH - 1 + 1
        omega
      · intro h0
        have h2 : c.sH = 0 := h0
        exact absurd h2 (by omega)
      · show c.blk.allocated = true ↔ 0 < c.sH + (c.wH - 1)
        rw [h6]
        omega
    · have hwk := h22 (by omega)
      by_cases hw2 : c.wH = 1
      · rw [if_pos (by omega)]
        refine ⟨h1, ?_, ?_, hb1, hb2, ?_⟩
        · intro h0
          exact absurd (show 0 < c.sH from h0) hn
        · intro _
          show (0 : Nat) = c.wH - 1
          omega
        · show false = true ↔ 0 < c.sH + (c.wH - 1)
          exact iff_of_false (by simp) (by omega)
      · rw [if_neg (by omega)]
        refine ⟨h1, ?_, ?_, hb1, hb2, ?_⟩
        · intro h0
          exact absurd (show 0 < c.sH from h0) hn
        · intro _
          show c.blk.weak - 1 = c.wH - 1
          omega
        · show c.blk.allocated = true ↔ 0 < c.sH + (c.wH - 1)
          rw [h6]
          omega
  | downgradeOp b2 hs1 hd =>
    obtain ⟨hne, hb⟩ := downgrade_some_eq c.blk b2 hd
    subst hb
    have hwk := h21 (by omega)
    have hmod : (c.blk.weak + 1) % W = c.blk.weak + 1 := mod_add_one c.blk.weak (by omega)
    refine ⟨h1, ?_, ?_, hb1, hb2, ?_⟩
    · intro _
      show (c.blk.weak + 1) % W = c.wH + 1 + 1
      rw [hmod]
      omega
    · intro h0
      have h2 : c.sH = 0 := h0
      exact absurd h2 (by omega)
    · show c.blk.allocated = true ↔ 0 < c.sH + (c.wH + 1)
      rw [h6]
      omega
  | upgradeOp hw1 hsp =>
    have hup : (Weak.upgrade c.blk).2 = { c.blk with strong := (c.blk.strong + 1) % W } := by
      unfold Weak.upgrade
      rw [if_neg (by omega)]
    have hmod : (c.blk.strong + 1) % W = c.blk.strong + 1 := mod_add_one _ (by omega)
    rw [hup]
    have hwk := h21 (by omega)
    refine ⟨?_, ?_, ?_, hb1, hb2, ?_⟩
    · show (c.blk.strong + 1) % W = c.sH + 1
      rw [hmod]
      omega
    · intro _
      exact hwk
    · intro h0
      have h2 : c.sH + 1 = 0 := h0
      exact absurd h2 (by omega)
    · show c.blk.allocated = true ↔ 0 < c.sH + 1 + c.wH
      rw [h6]
      omega
  | upgradeFailOp hw1 hs0 =>
    have hup : (Weak.upgrade c.blk).2 = c.blk := by
      unfold Weak.upgrade
      rw [if_pos hs0]
    rw [hup]
    exact ⟨h1, h21, h22, hb1, hb2, h6⟩
  | getMutOp hs1 =>
    rw [get_mut_snd c.blk]
    exact ⟨h1, h21, h22, hb1, hb2, h6⟩

theorem reach_inv {T : Type} (v : T) (c : Config T) (h : Reach v c) : ArcInv c := by
  induction h with
  | refl => exact inv_init v
  | tail hr hs ih => exact inv_step _ _ ih hs

/-- C7: in every configuration reachable from `new` by any sequence of
clones (strong or weak), downgrades, upgrades, `get_mut` calls and drops
(within the supported handle-count regime), whenever the strong counter
is positive the weak counter is at least 1 (the collective
strong-owners' unit) and the block's memory has not been freed. -/
theorem c7_strong_implies_weak_unit {T : Type} (v : T) (c : Config T)
    (h : Reach v c) (hs : 0 < c.blk.strong) :
    1 ≤ c.blk.weak ∧ c.blk.allocated = true := by
  obtain ⟨h1, h21, h22, h4, h5, h6⟩ := reach_inv v c h
  have hsh : 0 < c.sH := by omega
  have hw := h21 hsh
  exact ⟨by omega, h6.mpr (by omega)⟩

/-- C7 witness: the initial configuration `new 42` is reachable and has
a positive strong counter. -/
theorem c7_strong_implies_weak_unit_witness :
    0 < (initConfig (42 : Nat)).blk.strong ∧
    (1 ≤ (initConfig (42 : Nat)).blk.weak ∧
      (initConfig (42 : Nat)).blk.allocated = true) :=
  ⟨by decide,
   c7_strong_implies_weak_unit 42 (initConfig 42) Relation.ReflTransGen.refl (by decide)⟩
